import Mathlib

/-!
Verification of the blackjack-trainer engine: a shallow embedding of the
card/hand/shoe data model (src/blackjack/models.py), the basic-strategy
decision engine (src/blackjack/strategy.py) and the round state machine of
the counting-practice revision of the game module, together with theorems
checking the natural-language specification against it.
-/

/-- Card ranks, as in `Deck.RANKS` of src/blackjack/models.py. -/
inductive Rank where
  | r2 | r3 | r4 | r5 | r6 | r7 | r8 | r9 | r10 | rJ | rQ | rK | rA
deriving DecidableEq, Repr

/-- Card suits, as in `Deck.SUITS` of src/blackjack/models.py. -/
inductive Suit where
  | spades | hearts | diamonds | clubs
deriving DecidableEq, Repr

/-- A playing card (`Card` in src/blackjack/models.py): a rank/suit pair. -/
structure Card where
  rank : Rank
  suit : Suit
deriving DecidableEq, Repr

/-- `Card.value` from src/blackjack/models.py: 10 for J/Q/K, 11 for an Ace
(aces are re-valued dynamically in `Hand.get_value`), the numeric rank
otherwise. -/
def Card.value (c : Card) : Nat :=
  match c.rank with
  | Rank.rJ | Rank.rQ | Rank.rK => 10
  | Rank.rA => 11
  | Rank.r2 => 2
  | Rank.r3 => 3
  | Rank.r4 => 4
  | Rank.r5 => 5
  | Rank.r6 => 6
  | Rank.r7 => 7
  | Rank.r8 => 8
  | Rank.r9 => 9
  | Rank.r10 => 10

/-- Modelled from the spec: the Hi-Lo `count_weight` of a card (2-6 count +1,
7-9 count 0, 10/J/Q/K/A count -1).  The `Card` class of the counting-practice
revision carries this derived attribute; the `models.py` under src/ is the
earlier betting revision and lacks it, so it is reconstructed here from the
spec's words. -/
def Card.count_weight (c : Card) : Int :=
  match c.rank with
  | Rank.r2 | Rank.r3 | Rank.r4 | Rank.r5 | Rank.r6 => 1
  | Rank.r7 | Rank.r8 | Rank.r9 => 0
  | Rank.r10 | Rank.rJ | Rank.rQ | Rank.rK | Rank.rA => -1

/-- A hand of cards (`Hand` in src/blackjack/models.py): an ordered card list
plus the `is_stayed` and `is_from_split` flags. -/
structure Hand where
  cards : List Card
  is_stayed : Bool
  is_from_split : Bool
deriving DecidableEq, Repr

/-- A fresh empty hand, as built by `Hand()` in src/blackjack/models.py. -/
def emptyHand : Hand := ⟨[], false, false⟩

/-- `Hand.add_card` from src/blackjack/models.py: append a card. -/
def Hand.add_card (h : Hand) (c : Card) : Hand :=
  ⟨h.cards ++ [c], h.is_stayed, h.is_from_split⟩

/-- The ace-downgrading loop of `Hand.get_value` (src/blackjack/models.py):
while the value exceeds 21 and aces remain, subtract 10 and consume an ace. -/
def adjustAces : Nat → Nat → Nat
  | v, 0 => v
  | v, a + 1 => if 21 < v then adjustAces (v - 10) a else v

/-- Number of aces in a card list, as counted by `Hand.get_value`. -/
def aceCount (cs : List Card) : Nat :=
  cs.countP (fun c => c.rank == Rank.rA)

/-- `Hand.get_value` from src/blackjack/models.py: sum the card values
(aces as 11), then downgrade aces while the total exceeds 21. -/
def Hand.get_value (h : Hand) : Nat :=
  adjustAces ((h.cards.map Card.value).sum) (aceCount h.cards)

/-- `Hand.is_bust` from src/blackjack/models.py. -/
def Hand.is_bust (h : Hand) : Bool :=
  21 < h.get_value

/-- `Hand.is_blackjack` from src/blackjack/models.py: false for any
split-derived hand, else exactly two cards totalling 21. -/
def Hand.is_blackjack (h : Hand) : Bool :=
  if h.is_from_split then false
  else h.cards.length == 2 && h.get_value == 21

/-- `Hand.can_split` from src/blackjack/models.py: exactly two cards of the
same rank (raw rank equality). -/
def Hand.can_split (h : Hand) : Bool :=
  h.cards.length == 2 &&
    ((h.cards.headD ⟨Rank.r2, Suit.spades⟩).rank ==
      (h.cards.getLastD ⟨Rank.r2, Suit.spades⟩).rank)

/-- `Hand.can_double_down` from src/blackjack/models.py: exactly two cards. -/
def Hand.can_double_down (h : Hand) : Bool :=
  h.cards.length == 2

/-- Sum of the values of the non-ace cards of a list. -/
def nonAceSum (cs : List Card) : Nat :=
  ((cs.filter (fun c => c.rank != Rank.rA)).map Card.value).sum

/- ### Arithmetic characterisation of the ace-downgrading loop -/

theorem value_of_ace {c : Card} (h : c.rank = Rank.rA) : c.value = 11 := by
  simp [Card.value, h]

theorem sum_value_split (cs : List Card) :
    (cs.map Card.value).sum = nonAceSum cs + 11 * aceCount cs := by
  induction cs with
  | nil => simp [nonAceSum, aceCount]
  | cons c cs ih =>
    by_cases hA : c.rank = Rank.rA
    · simp [nonAceSum, aceCount, hA, value_of_ace hA] at *
      omega
    · simp [nonAceSum, aceCount, hA] at *
      omega

/-- Sum of a card list valuing every ace as 1 (the `temp_value_if_ace_is_1`
computation of src/blackjack/strategy.py). -/
def allOnesValue (cs : List Card) : Nat :=
  (cs.map (fun c => if c.rank == Rank.rA then 1 else c.value)).sum

theorem allOnesValue_split (cs : List Card) :
    allOnesValue cs = nonAceSum cs + aceCount cs := by
  induction cs with
  | nil => simp [allOnesValue, nonAceSum, aceCount]
  | cons c cs ih =>
    by_cases hA : c.rank = Rank.rA
    · simp [allOnesValue, nonAceSum, aceCount, hA] at *
      omega
    · simp [allOnesValue, nonAceSum, aceCount, hA] at *
      omega

theorem adjustAces_props (m : Nat) :
    ∀ a : Nat,
      (∃ j, j ≤ a ∧ adjustAces (m + 10 * a) a = m + 10 * j) ∧
      ((∃ j, j ≤ a ∧ m + 10 * j ≤ 21) →
        adjustAces (m + 10 * a) a ≤ 21 ∧
        ∀ j, j ≤ a → m + 10 * j ≤ 21 → m + 10 * j ≤ adjustAces (m + 10 * a) a) ∧
      ((∀ j, j ≤ a → 21 < m + 10 * j) → adjustAces (m + 10 * a) a = m) ∧
      (21 < adjustAces (m + 10 * a) a → adjustAces (m + 10 * a) a = m) := by
  intro a
  induction a with
  | zero =>
    refine ⟨⟨0, by omega, by simp [adjustAces]⟩, ?_, ?_, ?_⟩
    · rintro ⟨j, hj, hle⟩
      have hj0 : j = 0 := Nat.le_zero.mp hj
      subst hj0
      constructor
      · simpa [adjustAces] using hle
      · intro j hj _
        have hj0 : j = 0 := Nat.le_zero.mp hj
        subst hj0
        simp [adjustAces]
    · intro _
      simp [adjustAces]
    · intro _
      simp [adjustAces]
  | succ a ih =>
    have hunf : adjustAces (m + 10 * (a + 1)) (a + 1) =
        if 21 < m + 10 * (a + 1) then adjustAces (m + 10 * (a + 1) - 10) a
        else m + 10 * (a + 1) := rfl
    by_cases hbig : 21 < m + 10 * (a + 1)
    · have hsub : m + 10 * (a + 1) - 10 = m + 10 * a := by omega
      have hr : adjustAces (m + 10 * (a + 1)) (a + 1) = adjustAces (m + 10 * a) a := by
        rw [hunf, if_pos hbig, hsub]
      obtain ⟨⟨j0, hj0a, hj0eq⟩, hmax, hmin, hover⟩ := ih
      refine ⟨⟨j0, by omega, by rw [hr]; exact hj0eq⟩, ?_, ?_, ?_⟩
      · rintro ⟨j, hj, hle⟩
        have hja : j ≤ a := by
          rcases Nat.lt_or_ge j (a + 1) with h | h
          · omega
          · exfalso
            have : m + 10 * (a + 1) ≤ m + 10 * j := by omega
            omega
        have := hmax ⟨j, hja, hle⟩
        refine ⟨by rw [hr]; exact this.1, ?_⟩
        intro j' hj' hle'
        have hj'a : j' ≤ a := by
          rcases Nat.lt_or_ge j' (a + 1) with h | h
          · omega
          · exfalso
            have : m + 10 * (a + 1) ≤ m + 10 * j' := by omega
            omega
        rw [hr]
        exact this.2 j' hj'a hle'
      · intro hall
        rw [hr]
        exact hmin (fun j hj => hall j (by omega))
      · intro hov
        rw [hr] at hov ⊢
        exact hover hov
    · have hr : adjustAces (m + 10 * (a + 1)) (a + 1) = m + 10 * (a + 1) := by
        rw [hunf, if_neg hbig]
      refine ⟨⟨a + 1, le_refl _, hr⟩, ?_, ?_, ?_⟩
      · intro _
        refine ⟨by omega, ?_⟩
        intro j hj _
        rw [hr]
        omega
      · intro hall
        exfalso
        have := hall (a + 1) (le_refl _)
        omega
      · intro hov
        rw [hr] at hov
        omega

/-- The claim C1, general part: `get_value` returns an achievable
ace-valuation total; it is the greatest achievable total that is at most 21
whenever one exists; and if every achievable total busts it is the minimum
possible total (every ace valued 1). -/
theorem get_value_correct (h : Hand) :
    (∃ j, j ≤ aceCount h.cards ∧
      h.get_value = nonAceSum h.cards + aceCount h.cards + 10 * j) ∧
    ((∃ j, j ≤ aceCount h.cards ∧
        nonAceSum h.cards + aceCount h.cards + 10 * j ≤ 21) →
      h.get_value ≤ 21 ∧
      ∀ j, j ≤ aceCount h.cards →
        nonAceSum h.cards + aceCount h.cards + 10 * j ≤ 21 →
        nonAceSum h.cards + aceCount h.cards + 10 * j ≤ h.get_value) ∧
    ((∀ j, j ≤ aceCount h.cards →
        21 < nonAceSum h.cards + aceCount h.cards + 10 * j) →
      h.get_value = nonAceSum h.cards + aceCount h.cards) := by
  have hv : h.get_value =
      adjustAces ((nonAceSum h.cards + aceCount h.cards) + 10 * aceCount h.cards)
        (aceCount h.cards) := by
    unfold Hand.get_value
    rw [sum_value_split]
    congr 1
    omega
  obtain ⟨he, hmax, hmin, _⟩ := adjustAces_props (nonAceSum h.cards + aceCount h.cards)
    (aceCount h.cards)
  refine ⟨?_, ?_, ?_⟩
  · obtain ⟨j, hj, hje⟩ := he
    exact ⟨j, hj, by rw [hv]; exact hje⟩
  · intro hex
    obtain ⟨h1, h2⟩ := hmax hex
    refine ⟨by rw [hv]; exact h1, ?_⟩
    intro j hj hle
    rw [hv]
    exact h2 j hj hle
  · intro hall
    rw [hv]
    exact hmin hall

/-- If `get_value` busts, every ace was downgraded: the value equals the
all-aces-as-1 total. -/
theorem get_value_bust_eq_allOnes (h : Hand) (hb : 21 < h.get_value) :
    h.get_value = allOnesValue h.cards := by
  have hv : h.get_value =
      adjustAces ((nonAceSum h.cards + aceCount h.cards) + 10 * aceCount h.cards)
        (aceCount h.cards) := by
    unfold Hand.get_value
    rw [sum_value_split]
    congr 1
    omega
  obtain ⟨_, _, _, hover⟩ := adjustAces_props (nonAceSum h.cards + aceCount h.cards)
    (aceCount h.cards)
  rw [allOnesValue_split]
  rw [hv] at hb ⊢
  exact hover hb

/-- A hand without aces has `get_value` equal to its all-aces-as-1 total. -/
theorem get_value_no_ace_eq_allOnes (h : Hand) (ha : aceCount h.cards = 0) :
    h.get_value = allOnesValue h.cards := by
  unfold Hand.get_value
  rw [sum_value_split, allOnesValue_split, ha]
  simp [adjustAces]

/- ### Strategy engine (src/blackjack/strategy.py) -/

/-- The recommended actions of the strategy engine: Hit, Stand, Double,
Split. -/
inductive Move where
  | H | S | D | P
deriving DecidableEq, Repr

/-- Column index of a dealer upcard rank in `DEALER_UPCARDS`
(src/blackjack/strategy.py), after mapping a face card to the "10" column. -/
def upcardIndex (r : Rank) : Nat :=
  match r with
  | Rank.r2 => 0
  | Rank.r3 => 1
  | Rank.r4 => 2
  | Rank.r5 => 3
  | Rank.r6 => 4
  | Rank.r7 => 5
  | Rank.r8 => 6
  | Rank.r9 => 7
  | Rank.r10 | Rank.rJ | Rank.rQ | Rank.rK => 8
  | Rank.rA => 9

/-- Normalisation of a pair's rank for the pair-table key: face cards and
"10" map to the ten key, everything else is unchanged
(src/blackjack/strategy.py, pair branch). -/
def pairKey (r : Rank) : Rank :=
  match r with
  | Rank.rJ | Rank.rQ | Rank.rK => Rank.r10
  | x => x

/-- Row of the `hard_totals` table of `PERFECT_PLAY_TABLES`
(src/blackjack/strategy.py); keys outside 5..17 are absent from the Python
dict and unreachable in `get_recommended_move`. -/
def hardRow (v : Nat) : List Move :=
  match v with
  | 5 | 6 | 7 | 8 =>
    [Move.H, Move.H, Move.H, Move.H, Move.H, Move.H, Move.H, Move.H, Move.H, Move.H]
  | 9 =>
    [Move.H, Move.D, Move.D, Move.D, Move.D, Move.H, Move.H, Move.H, Move.H, Move.H]
  | 10 =>
    [Move.D, Move.D, Move.D, Move.D, Move.D, Move.D, Move.D, Move.D, Move.H, Move.H]
  | 11 =>
    [Move.D, Move.D, Move.D, Move.D, Move.D, Move.D, Move.D, Move.D, Move.D, Move.H]
  | 12 =>
    [Move.H, Move.H, Move.S, Move.S, Move.S, Move.H, Move.H, Move.H, Move.H, Move.H]
  | 13 | 14 | 15 | 16 =>
    [Move.S, Move.S, Move.S, Move.S, Move.S, Move.H, Move.H, Move.H, Move.H, Move.H]
  | 17 =>
    [Move.S, Move.S, Move.S, Move.S, Move.S, Move.S, Move.S, Move.S, Move.S, Move.S]
  | _ => []

/-- Row of the `soft_totals` table of `PERFECT_PLAY_TABLES`
(src/blackjack/strategy.py); keys outside 13..20 are absent and
unreachable. -/
def softRow (v : Nat) : List Move :=
  match v with
  | 13 | 14 =>
    [Move.H, Move.H, Move.H, Move.D, Move.D, Move.H, Move.H, Move.H, Move.H, Move.H]
  | 15 | 16 =>
    [Move.H, Move.H, Move.D, Move.D, Move.D, Move.H, Move.H, Move.H, Move.H, Move.H]
  | 17 =>
    [Move.H, Move.D, Move.D, Move.D, Move.D, Move.H, Move.H, Move.H, Move.H, Move.H]
  | 18 =>
    [Move.S, Move.D, Move.D, Move.D, Move.D, Move.S, Move.S, Move.H, Move.H, Move.H]
  | 19 | 20 =>
    [Move.S, Move.S, Move.S, Move.S, Move.S, Move.S, Move.S, Move.S, Move.S, Move.S]
  | _ => []

/-- Row of the `pairs` table of `PERFECT_PLAY_TABLES`
(src/blackjack/strategy.py), keyed by the normalised pair rank; the face
ranks can only reach this table through `pairKey` and share the ten row. -/
def pairRow (r : Rank) : List Move :=
  match r with
  | Rank.r2 | Rank.r3 =>
    [Move.P, Move.P, Move.P, Move.P, Move.P, Move.P, Move.H, Move.H, Move.H, Move.H]
  | Rank.r4 =>
    [Move.H, Move.H, Move.H, Move.P, Move.P, Move.H, Move.H, Move.H, Move.H, Move.H]
  | Rank.r5 =>
    [Move.D, Move.D, Move.D, Move.D, Move.D, Move.D, Move.D, Move.D, Move.H, Move.H]
  | Rank.r6 =>
    [Move.P, Move.P, Move.P, Move.P, Move.P, Move.H, Move.H, Move.H, Move.H, Move.H]
  | Rank.r7 =>
    [Move.P, Move.P, Move.P, Move.P, Move.P, Move.P, Move.H, Move.H, Move.H, Move.H]
  | Rank.r8 =>
    [Move.P, Move.P, Move.P, Move.P, Move.P, Move.P, Move.P, Move.P, Move.P, Move.P]
  | Rank.r9 =>
    [Move.P, Move.P, Move.P, Move.P, Move.P, Move.S, Move.P, Move.P, Move.S, Move.S]
  | Rank.r10 | Rank.rJ | Rank.rQ | Rank.rK =>
    [Move.S, Move.S, Move.S, Move.S, Move.S, Move.S, Move.S, Move.S, Move.S, Move.S]
  | Rank.rA =>
    [Move.P, Move.P, Move.P, Move.P, Move.P, Move.P, Move.P, Move.P, Move.P, Move.P]

/-- Indexing a strategy-table row by the upcard column.  Every reachable
lookup is within the ten-column row, so the default is never consulted. -/
def rowGet (row : List Move) (i : Nat) : Move :=
  row.getD i Move.H

/-- The Python soft-branch special case: a two-card hand of two aces
(src/blackjack/strategy.py, soft-total branch). -/
def isTwoAces (h : Hand) : Bool :=
  h.cards.length == 2 &&
    ((h.cards.headD ⟨Rank.r2, Suit.spades⟩).rank == Rank.rA) &&
    ((h.cards.getLastD ⟨Rank.r2, Suit.spades⟩).rank == Rank.rA)

/-- `get_recommended_move` from src/blackjack/strategy.py: pairs first, then
soft totals (excluding the two-ace special case, which falls through), then
hard totals. -/
def get_recommended_move (player_hand : Hand) (dealer_upcard : Card) : Move :=
  let ui := upcardIndex dealer_upcard.rank
  if player_hand.can_split = true ∧ player_hand.cards.length = 2 then
    rowGet (pairRow (pairKey (player_hand.cards.headD ⟨Rank.r2, Suit.spades⟩).rank)) ui
  else
    let v := player_hand.get_value
    if player_hand.cards.any (fun c => c.rank == Rank.rA) = true ∧ v ≤ 21 ∧
        v ≠ allOnesValue player_hand.cards ∧ isTwoAces player_hand = false ∧
        13 ≤ v ∧ v ≤ 20 then
      rowGet (softRow v) ui
    else
      if v < 5 then Move.H
      else if 17 ≤ v then Move.S
      else rowGet (hardRow v) ui

/- ### Concrete hands and upcards used by the testable-property claims -/

def handAA9 : Hand :=
  ⟨[⟨Rank.rA, Suit.spades⟩, ⟨Rank.rA, Suit.hearts⟩, ⟨Rank.r9, Suit.spades⟩], false, false⟩

def handAAA9 : Hand :=
  ⟨[⟨Rank.rA, Suit.spades⟩, ⟨Rank.rA, Suit.hearts⟩, ⟨Rank.rA, Suit.diamonds⟩,
    ⟨Rank.r9, Suit.spades⟩], false, false⟩

def hand88 : Hand := ⟨[⟨Rank.r8, Suit.spades⟩, ⟨Rank.r8, Suit.hearts⟩], false, false⟩

def hand106 : Hand := ⟨[⟨Rank.r10, Suit.spades⟩, ⟨Rank.r6, Suit.spades⟩], false, false⟩

def handAA : Hand := ⟨[⟨Rank.rA, Suit.spades⟩, ⟨Rank.rA, Suit.hearts⟩], false, false⟩

def handA6 : Hand := ⟨[⟨Rank.rA, Suit.spades⟩, ⟨Rank.r6, Suit.hearts⟩], false, false⟩

def handAK : Hand := ⟨[⟨Rank.rA, Suit.spades⟩, ⟨Rank.rK, Suit.hearts⟩], false, false⟩

def handAKsplit : Hand := ⟨[⟨Rank.rA, Suit.spades⟩, ⟨Rank.rK, Suit.hearts⟩], false, true⟩

def up3 : Card := ⟨Rank.r3, Suit.spades⟩

def up6 : Card := ⟨Rank.r6, Suit.spades⟩

def up7 : Card := ⟨Rank.r7, Suit.spades⟩

def up10 : Card := ⟨Rank.r10, Suit.spades⟩

/-- C1: for every hand, `get_value` returns the maximum total that is at most
21 achievable by valuing each ace as 1 or 11 (a total with `j` aces valued 11
is `nonAceSum + aceCount + 10 * j`), or, if every such valuation exceeds 21,
the minimum possible total (every ace valued 1); in particular A,A,9 evaluates
to 21 and A,A,A,9 evaluates to 12. -/
theorem claim_C1_value_correctness :
    (∀ h : Hand,
      (∃ j, j ≤ aceCount h.cards ∧
        h.get_value = nonAceSum h.cards + aceCount h.cards + 10 * j) ∧
      ((∃ j, j ≤ aceCount h.cards ∧
          nonAceSum h.cards + aceCount h.cards + 10 * j ≤ 21) →
        h.get_value ≤ 21 ∧
        ∀ j, j ≤ aceCount h.cards →
          nonAceSum h.cards + aceCount h.cards + 10 * j ≤ 21 →
          nonAceSum h.cards + aceCount h.cards + 10 * j ≤ h.get_value) ∧
      ((∀ j, j ≤ aceCount h.cards →
          21 < nonAceSum h.cards + aceCount h.cards + 10 * j) →
        h.get_value = nonAceSum h.cards + aceCount h.cards)) ∧
    handAA9.get_value = 21 ∧ handAAA9.get_value = 12 :=
  ⟨fun h => get_value_correct h, by decide, by decide⟩

theorem claim_C1_witness :
    handAA9.get_value ≤ 21 ∧
    nonAceSum handAA9.cards + aceCount handAA9.cards + 10 * 1 ≤ handAA9.get_value :=
  ⟨((claim_C1_value_correctness.1 handAA9).2.1 ⟨1, by decide, by decide⟩).1,
   ((claim_C1_value_correctness.1 handAA9).2.1 ⟨1, by decide, by decide⟩).2 1
     (by decide) (by decide)⟩

/-- C9: `is_blackjack` holds exactly on a non-split-derived hand of exactly
two cards valued 21; a split-derived two-card 21 reports false. -/
theorem claim_C9_blackjack_exclusivity :
    (∀ h : Hand, h.is_blackjack = true ↔
      (h.is_from_split = false ∧ h.cards.length = 2 ∧ h.get_value = 21)) ∧
    handAKsplit.is_blackjack = false ∧
    handAK.is_blackjack = true := by
  refine ⟨?_, by decide, by decide⟩
  intro h
  by_cases hs : h.is_from_split
  · simp [Hand.is_blackjack, hs]
  · simp [Hand.is_blackjack, hs]

theorem claim_C9_witness :
    handAK.is_from_split = false ∧ handAK.cards.length = 2 ∧ handAK.get_value = 21 :=
  (claim_C9_blackjack_exclusivity.1 handAK).mp (by decide)

/- ### Resolution order of the strategy engine (claim C2) -/

theorem can_split_of_pair {h : Hand} {c0 c1 : Card} (hc : h.cards = [c0, c1])
    (hr : c0.rank = c1.rank) : h.can_split = true := by
  simp [Hand.can_split, hc, hr]

theorem no_ace_of_any_false {h : Hand}
    (ha : h.cards.any (fun c => c.rank == Rank.rA) = false) : aceCount h.cards = 0 := by
  simp [aceCount, List.countP_eq_zero]
  simp [List.any_eq_false] at ha
  exact ha

theorem can_split_of_twoAces {h : Hand} (ht : isTwoAces h = true) :
    h.can_split = true := by
  simp [isTwoAces] at ht
  obtain ⟨⟨hlen, hh⟩, hl⟩ := ht
  simp [Hand.can_split, hlen, hh, hl]

/-- C2: `get_recommended_move` resolves pairs first (normalised rank row,
firing even for A-A), then soft totals keyed by the best value in 13..20 when
an ace still counts as 11, then hard totals with value < 5 always Hit,
value at least 17 always Stand and 5..16 looked up by exact value; {8,8} vs 7
yields Split and {10,6} vs 10 yields Hit. -/
theorem claim_C2_resolution_order :
    (∀ (h : Hand) (u : Card) (c0 c1 : Card), h.cards = [c0, c1] → c0.rank = c1.rank →
      get_recommended_move h u = rowGet (pairRow (pairKey c0.rank)) (upcardIndex u.rank)) ∧
    (∀ (h : Hand) (u : Card), h.can_split = false →
      h.get_value ≠ allOnesValue h.cards → 13 ≤ h.get_value → h.get_value ≤ 20 →
      get_recommended_move h u = rowGet (softRow h.get_value) (upcardIndex u.rank)) ∧
    (∀ (h : Hand) (u : Card), h.can_split = false →
      ¬(h.get_value ≠ allOnesValue h.cards ∧ 13 ≤ h.get_value ∧ h.get_value ≤ 20) →
      (h.get_value < 5 → get_recommended_move h u = Move.H) ∧
      (17 ≤ h.get_value → get_recommended_move h u = Move.S) ∧
      (5 ≤ h.get_value → h.get_value ≤ 16 →
        get_recommended_move h u = rowGet (hardRow h.get_value) (upcardIndex u.rank))) ∧
    get_recommended_move hand88 up7 = Move.P ∧
    get_recommended_move hand106 up10 = Move.H ∧
    get_recommended_move handAA up6 = Move.P := by
  refine ⟨?_, ?_, ?_, by decide, by decide, by decide⟩
  · intro h u c0 c1 hc hr
    have hsplit := can_split_of_pair hc hr
    have hlen : h.cards.length = 2 := by simp [hc]
    unfold get_recommended_move
    rw [if_pos ⟨hsplit, hlen⟩]
    simp [hc]
  · intro h u hsplit hne h13 h20
    have h21 : h.get_value ≤ 21 := by
      by_contra hgt
      exact hne (get_value_bust_eq_allOnes h (by omega))
    have hace : h.cards.any (fun c => c.rank == Rank.rA) = true := by
      by_contra hfalse
      rw [Bool.not_eq_true] at hfalse
      exact hne (get_value_no_ace_eq_allOnes h (no_ace_of_any_false hfalse))
    have htwo : isTwoAces h = false := by
      by_contra ht
      rw [Bool.not_eq_false] at ht
      rw [can_split_of_twoAces ht] at hsplit
      simp at hsplit
    unfold get_recommended_move
    rw [if_neg (by
      rintro ⟨hs, _⟩
      rw [hs] at hsplit
      simp at hsplit)]
    rw [if_pos ⟨hace, h21, hne, htwo, h13, h20⟩]
  · intro h u hsplit hnotsoft
    have hcondneg : ¬(h.cards.any (fun c => c.rank == Rank.rA) = true ∧
        h.get_value ≤ 21 ∧ h.get_value ≠ allOnesValue h.cards ∧
        isTwoAces h = false ∧ 13 ≤ h.get_value ∧ h.get_value ≤ 20) := by
      rintro ⟨_, _, hne, _, h13, h20⟩
      exact hnotsoft ⟨hne, h13, h20⟩
    have hpairneg : ¬(h.can_split = true ∧ h.cards.length = 2) := by
      rintro ⟨hs, _⟩
      rw [hs] at hsplit
      simp at hsplit
    refine ⟨?_, ?_, ?_⟩
    · intro h5
      unfold get_recommended_move
      rw [if_neg hpairneg, if_neg hcondneg, if_pos h5]
    · intro h17
      unfold get_recommended_move
      rw [if_neg hpairneg, if_neg hcondneg, if_neg (by omega), if_pos h17]
    · intro h5 h16
      unfold get_recommended_move
      rw [if_neg hpairneg, if_neg hcondneg, if_neg (by omega), if_neg (by omega)]

theorem claim_C2_witness :
    get_recommended_move handAA up6 = rowGet (pairRow (pairKey Rank.rA)) (upcardIndex up6.rank) ∧
    get_recommended_move handA6 up3 = rowGet (softRow handA6.get_value) (upcardIndex up3.rank) ∧
    get_recommended_move hand106 up10 = rowGet (hardRow hand106.get_value) (upcardIndex up10.rank) :=
  ⟨claim_C2_resolution_order.1 handAA up6 ⟨Rank.rA, Suit.spades⟩ ⟨Rank.rA, Suit.hearts⟩ rfl rfl,
   claim_C2_resolution_order.2.1 handA6 up3 (by decide) (by decide) (by decide) (by decide),
   (claim_C2_resolution_order.2.2.1 hand106 up10 (by decide) (by decide)).2.2
     (by decide) (by decide)⟩

/- ### Round state machine (counting-practice revision of the game module) -/

/-- Round states of the counting-practice revision; the spec removes the
betting state, so a round cycles PLAYER_TURN, DEALER_TURN, ROUND_OVER. -/
inductive GameState where
  | PLAYER_TURN | DEALER_TURN | ROUND_OVER
deriving DecidableEq, Repr

/-- The `last_move_feedback` record built by `_record_move_feedback`. -/
structure Feedback where
  player_move : Move
  recommended_move : Move
  is_correct : Bool
  hand_index : Nat
deriving DecidableEq, Repr

/-- The game: shoe, participants, state machine fields and the counting
fields of the counting-practice revision.  The dealer owns a single hand
(`dealer.hands[0]`, the only one the source ever uses).  `shoeTotal` is the
shoe capacity at the last rebuild, used for the penetration computation. -/
structure Game where
  shoeCards : List Card
  shoeTotal : Nat
  numDecks : Nat
  playerHands : List Hand
  dealerHand : Hand
  state : GameState
  currentHandIndex : Nat
  lastMoveFeedback : Option Feedback
  runningCount : Int
  handsUntilNextQuery : Int
  needsCountVerification : Bool
deriving DecidableEq, Repr

/-- Modelled from the spec: the Game's dealing path.  `Deck.deal` of
src/blackjack/models.py pops the last card and fails when the shoe is empty;
the counting-practice revision additionally adds the dealt card's
`count_weight` to `running_count` on every deal (that revision's game module
is absent from src/). -/
def Game.dealCard (g : Game) : Option (Card × Game) :=
  match g.shoeCards.getLast? with
  | none => none
  | some c =>
    some (c, { g with shoeCards := g.shoeCards.dropLast,
                      runningCount := g.runningCount + c.count_weight })

/-- Replace the player hand at an index (the source mutates the hand object
held in `player.hands`). -/
def Game.setHand (g : Game) (idx : Nat) (h : Hand) : Game :=
  { g with playerHands := g.playerHands.set idx h }

/-- Deal a card into a player hand, as `hand.add_card(self.deck.deal())`. -/
def Game.addCardToPlayer (g : Game) (idx : Nat) (c : Card) : Game :=
  g.setHand idx ((g.playerHands.getD idx emptyHand).add_card c)

/-- Deal a card into the dealer's hand. -/
def Game.addCardToDealer (g : Game) (c : Card) : Game :=
  { g with dealerHand := g.dealerHand.add_card c }

/-- `Dealer.should_hit` from src/blackjack/models.py: hit below 17, stand on
every 17 or more (soft 17 included). -/
def dealerShouldHit (h : Hand) : Bool :=
  h.get_value < 17

/-- Modelled from the spec: `resolve_round` of the counting-practice revision
transitions to ROUND_OVER and decrements the count-query countdown, raising
`needs_count_verification` when it reaches zero or below (outcome
determination is performed by the external renderer). -/
def Game.resolveRound (g : Game) : Game :=
  { g with state := GameState.ROUND_OVER,
           handsUntilNextQuery := g.handsUntilNextQuery - 1,
           needsCountVerification :=
             if g.handsUntilNextQuery - 1 ≤ 0 then true else g.needsCountVerification }

/-- The index scan of `_advance_hand`: starting from the current index, keep
stepping forward past hands already marked stayed; the fuel only bounds the
iteration count (one hand is passed per step, so `hands.length` steps always
suffice) and mirrors the recursion of the source. -/
def advanceLoop : Nat → List Hand → Nat → Nat
  | 0, _, i => i + 1
  | fuel + 1, hands, i =>
    if hcond : i + 1 < hands.length then
      if (hands.get ⟨i + 1, hcond⟩).is_stayed then advanceLoop fuel hands (i + 1)
      else i + 1
    else i + 1

/-- Modelled from the spec: `_advance_hand` of the interactive
(counting-practice) revision increments the active-hand index, skips hands
already stayed, and transitions to DEALER_TURN once the index passes the last
hand; it does not itself run dealer play (the caller drives the dealer
explicitly). -/
def Game.advanceHand (g : Game) : Game :=
  let j := advanceLoop g.playerHands.length g.playerHands g.currentHandIndex
  { g with currentHandIndex := j,
           state := if g.playerHands.length ≤ j then GameState.DEALER_TURN else g.state }

/-- `_record_move_feedback`: look up the active hand and the dealer upcard,
compute the recommendation for the pre-move hand and store the feedback
record; fails (before any mutation) if either indexed access fails. -/
def Game.recordMoveFeedback (g : Game) (mv : Move) (idx : Nat) : Option Game :=
  match g.playerHands[idx]?, g.dealerHand.cards.head? with
  | some ph, some up =>
    let advice := get_recommended_move ph up
    some { g with lastMoveFeedback := some ⟨mv, advice, mv == advice, idx⟩ }
  | _, _ => none

/-- `hit`: valid only in PLAYER_TURN; records feedback for "H" against the
pre-hit hand, deals one card to the active hand, and advances past the hand
if it busts.  The second component reports the failure, with the first
component holding the game exactly as the failed call leaves it. -/
def Game.hit (g : Game) : Game × Option String :=
  if g.state = GameState.PLAYER_TURN then
    match g.recordMoveFeedback Move.H g.currentHandIndex with
    | none => (g, some "list index out of range")
    | some g1 =>
      match g1.dealCard with
      | none => (g1, some "No cards left in the deck.")
      | some (c, g2) =>
        let g3 := g2.addCardToPlayer g.currentHandIndex c
        if (g3.playerHands.getD g.currentHandIndex emptyHand).is_bust then
          (g3.advanceHand, none)
        else (g3, none)
  else (g, some "Not player's turn.")

/-- `stand`: valid only in PLAYER_TURN; records feedback for "S", marks the
active hand stayed and advances. -/
def Game.stand (g : Game) : Game × Option String :=
  if g.state = GameState.PLAYER_TURN then
    match g.recordMoveFeedback Move.S g.currentHandIndex with
    | none => (g, some "list index out of range")
    | some g1 =>
      let h := g1.playerHands.getD g.currentHandIndex emptyHand
      ((g1.setHand g.currentHandIndex ⟨h.cards, true, h.is_from_split⟩).advanceHand, none)
  else (g, some "Not player's turn.")

/-- `double_down` of the counting-practice revision: valid only in
PLAYER_TURN on a two-card hand; records feedback for "D", deals exactly one
card, marks the hand stayed, advances (bet bookkeeping was removed with the
bankroll in this revision). -/
def Game.double_down (g : Game) : Game × Option String :=
  if g.state = GameState.PLAYER_TURN then
    match g.playerHands[g.currentHandIndex]? with
    | none => (g, some "list index out of range")
    | some hand =>
      if hand.can_double_down then
        match g.recordMoveFeedback Move.D g.currentHandIndex with
        | none => (g, some "list index out of range")
        | some g1 =>
          match g1.dealCard with
          | none => (g1, some "No cards left in the deck.")
          | some (c, g2) =>
            let h2 := (g2.playerHands.getD g.currentHandIndex emptyHand).add_card c
            ((g2.setHand g.currentHandIndex ⟨h2.cards, true, h2.is_from_split⟩).advanceHand,
              none)
      else (g, some "Cannot double down on this hand.")
  else (g, some "Not player's turn.")

/-- Insertion at an index, with the semantics of Python `list.insert`. -/
def listInsertAt (l : List α) (i : Nat) (x : α) : List α :=
  l.take i ++ x :: l.drop i

/-- `split`: valid only in PLAYER_TURN on a split-eligible hand.  Records
feedback for "P" on the pre-split hand, marks the original hand
`is_from_split`, pops its second card into a new split hand, deals one fresh
card to each, inserts the new hand immediately after the current index, and
for a pair of aces marks both hands stayed and advances. -/
def Game.split (g : Game) : Game × Option String :=
  if g.state = GameState.PLAYER_TURN then
    match g.playerHands[g.currentHandIndex]? with
    | none => (g, some "list index out of range")
    | some hand =>
      if hand.can_split then
        match g.recordMoveFeedback Move.P g.currentHandIndex with
        | none => (g, some "list index out of range")
        | some g1 =>
          let moved := hand.cards.getLastD ⟨Rank.r2, Suit.spades⟩
          let g2 := g1.setHand g.currentHandIndex ⟨hand.cards.dropLast, hand.is_stayed, true⟩
          match g2.dealCard with
          | none => (g2, some "No cards left in the deck.")
          | some (c1, g3) =>
            let g4 := g3.addCardToPlayer g.currentHandIndex c1
            match g4.dealCard with
            | none => (g4, some "No cards left in the deck.")
            | some (c2, g5) =>
              let inserted := listInsertAt g5.playerHands (g.currentHandIndex + 1)
                ⟨[moved, c2], false, true⟩
              let g6 := { g5 with playerHands := inserted }
              if ((g6.playerHands.getD g.currentHandIndex emptyHand).cards.headD
                    ⟨Rank.r2, Suit.spades⟩).rank = Rank.rA then
                let hOrig := g6.playerHands.getD g.currentHandIndex emptyHand
                let g7 := g6.setHand g.currentHandIndex ⟨hOrig.cards, true, hOrig.is_from_split⟩
                let hNew := g7.playerHands.getD (g.currentHandIndex + 1) emptyHand
                let g8 := g7.setHand (g.currentHandIndex + 1) ⟨hNew.cards, true, hNew.is_from_split⟩
                (g8.advanceHand, none)
              else (g6, none)
      else (g, some "Cannot split this hand.")
  else (g, some "Not player's turn.")

/-- Modelled from the spec: the reshuffle policy owned by the Game.  Before a
round, if penetration `(total - remaining) / total` exceeds 0.75 (as exact
arithmetic: `3 * total < 4 * (total - remaining)`), rebuild the shoe from
fresh fully-shuffled decks (the rebuilt, shuffled card sequence is passed in
as `fresh`) and reset `running_count` to 0; otherwise the shoe is left
untouched. -/
def reshufflePolicy (g : Game) (fresh : List Card) : Game :=
  if 3 * g.shoeTotal < 4 * (g.shoeTotal - g.shoeCards.length) then
    { g with shoeCards := fresh, shoeTotal := fresh.length, runningCount := 0 }
  else g

/-- Modelled from the spec: the dealing phase of `start_round` after the
reshuffle policy.  Resets both participants to one empty hand, deals in the
fixed order player, dealer, player, dealer, clears the feedback, enters
PLAYER_TURN and, if either initial hand is a natural blackjack, skips to
DEALER_TURN and immediately resolves. -/
def Game.dealPhase (g : Game) : Game × Option String :=
  let g0 := { g with playerHands := [emptyHand], dealerHand := emptyHand }
  match g0.dealCard with
  | none => (g0, some "No cards left in the deck.")
  | some (c1, g1) =>
    let g1p := g1.addCardToPlayer 0 c1
    match g1p.dealCard with
    | none => (g1p, some "No cards left in the deck.")
    | some (c2, g2) =>
      let g2d := g2.addCardToDealer c2
      match g2d.dealCard with
      | none => (g2d, some "No cards left in the deck.")
      | some (c3, g3) =>
        let g3p := g3.addCardToPlayer 0 c3
        match g3p.dealCard with
        | none => (g3p, some "No cards left in the deck.")
        | some (c4, g4) =>
          let g5 := { g4.addCardToDealer c4 with
            state := GameState.PLAYER_TURN, currentHandIndex := 0, lastMoveFeedback := none }
          if (g5.playerHands.getD 0 emptyHand).is_blackjack || g5.dealerHand.is_blackjack then
            (Game.resolveRound { g5 with state := GameState.DEALER_TURN }, none)
          else (g5, none)

/-- Modelled from the spec: `start_round` of the counting-practice revision
is valid only from ROUND_OVER, applies the reshuffle policy and then the
dealing phase. -/
def Game.start_round (g : Game) (fresh : List Card) : Game × Option String :=
  if g.state = GameState.ROUND_OVER then (reshufflePolicy g fresh).dealPhase
  else (g, some "Cannot start round in current state.")

/-- Modelled from the spec: the single-step dealer action
`dealer_hit_if_needed`.  A no-op reporting no card dealt outside DEALER_TURN
or when every player hand is busted; otherwise deals one card while the
dealer total is below 17; `none` is the defensive empty-shoe failure. -/
def Game.dealerHitIfNeeded (g : Game) : Option (Bool × Game) :=
  if g.state = GameState.DEALER_TURN then
    if g.playerHands.all (fun h => h.is_bust) then some (false, g)
    else if dealerShouldHit g.dealerHand then
      match g.dealCard with
      | none => none
      | some (c, g1) => some (true, g1.addCardToDealer c)
    else some (false, g)
  else some (false, g)

/-- Draining loop of `dealer_play`: repeat `dealer_hit_if_needed` until it
reports no card dealt.  Every productive step consumes one shoe card, so fuel
`g.shoeCards.length` makes the fuel-exhaustion branch unreachable; it is kept
only to make the recursion structural. -/
def dealerDrainFuel : Nat → Game → Option Game
  | 0, g =>
    match g.dealerHitIfNeeded with
    | none => none
    | some (false, g1) => some g1
    | some (true, _) => none
  | fuel + 1, g =>
    match g.dealerHitIfNeeded with
    | none => none
    | some (false, g1) => some g1
    | some (true, g1) => dealerDrainFuel fuel g1

/-- `dealer_play`: returns without resolving when not in DEALER_TURN (as the
source's guard does), otherwise drains `dealer_hit_if_needed` to completion
and resolves the round. -/
def Game.dealer_play (g : Game) : Option Game :=
  if g.state = GameState.DEALER_TURN then
    (dealerDrainFuel g.shoeCards.length g).map Game.resolveRound
  else some g

/- ### Frame lemmas for the game operations -/

theorem dealCard_some {g : Game} {c : Card} {g1 : Game} (h : g.dealCard = some (c, g1)) :
    g1 = { g with shoeCards := g.shoeCards.dropLast,
                  runningCount := g.runningCount + c.count_weight } := by
  unfold Game.dealCard at h
  rcases hl : g.shoeCards.getLast? with _ | c0 <;> rw [hl] at h <;> simp at h
  obtain ⟨hc, hg⟩ := h
  rw [← hg, hc]

theorem recordMoveFeedback_some {g : Game} {mv : Move} {idx : Nat} {g1 : Game}
    (h : g.recordMoveFeedback mv idx = some g1) :
    ∃ ph up, g.playerHands[idx]? = some ph ∧ g.dealerHand.cards.head? = some up ∧
      g1 = { g with lastMoveFeedback := some ⟨mv, get_recommended_move ph up,
        mv == get_recommended_move ph up, idx⟩ } := by
  unfold Game.recordMoveFeedback at h
  rcases hph : g.playerHands[idx]? with _ | ph <;>
    rcases hup : g.dealerHand.cards.head? with _ | up <;>
      rw [hph, hup] at h <;> simp at h
  exact ⟨ph, up, rfl, rfl, h.symm⟩

/-- C7: the hand-advance transition never touches the dealer's hand or the
shoe, and none of the player operations that may invoke it (stand, hit,
double_down, split) ever changes the dealer's hand: dealer progression
happens only through the explicit dealer-play calls. -/
theorem claim_C7_advance_no_dealer_play :
    ∀ g : Game,
      (g.advanceHand).dealerHand = g.dealerHand ∧
      (g.advanceHand).shoeCards = g.shoeCards ∧
      ((g.stand).1).dealerHand = g.dealerHand ∧
      ((g.hit).1).dealerHand = g.dealerHand ∧
      ((g.double_down).1).dealerHand = g.dealerHand ∧
      ((g.split).1).dealerHand = g.dealerHand := by
  intro g
  refine ⟨rfl, rfl, ?_, ?_, ?_, ?_⟩
  · unfold Game.stand
    split
    · split
      · rfl
      · rename_i g1 hrec
        obtain ⟨ph, up, _, _, hg1⟩ := recordMoveFeedback_some hrec
        subst hg1
        rfl
    · rfl
  · unfold Game.hit
    split
    · split
      · rfl
      · rename_i g1 hrec
        obtain ⟨ph, up, _, _, hg1⟩ := recordMoveFeedback_some hrec
        split
        · subst hg1
          rfl
        · rename_i c g2 hdc
          have hg2 := dealCard_some hdc
          subst hg2
          subst hg1
          dsimp only
          split <;> rfl
    · rfl
  · unfold Game.double_down
    split
    · split
      · rfl
      · split
        · split
          · rfl
          · rename_i g1 hrec
            obtain ⟨ph, up, _, _, hg1⟩ := recordMoveFeedback_some hrec
            split
            · subst hg1
              rfl
            · rename_i c g2 hdc
              have hg2 := dealCard_some hdc
              subst hg2
              subst hg1
              rfl
        · rfl
    · rfl
  · unfold Game.split
    split
    · split
      · rfl
      · split
        · split
          · rfl
          · rename_i g1 hrec
            obtain ⟨ph, up, _, _, hg1⟩ := recordMoveFeedback_some hrec
            dsimp only
            split
            · subst hg1
              rfl
            · rename_i c1 g3 hdc
              have hg3 := dealCard_some hdc
              split
              · subst hg3
                subst hg1
                rfl
              · rename_i c2 g5 hdc2
                have hg5 := dealCard_some hdc2
                subst hg5
                subst hg3
                subst hg1
                dsimp only
                split <;> rfl
        · rfl
    · rfl


/- ### Concrete games used by witnesses and counterexamples -/

def allRanks : List Rank :=
  [Rank.r2, Rank.r3, Rank.r4, Rank.r5, Rank.r6, Rank.r7, Rank.r8, Rank.r9,
   Rank.r10, Rank.rJ, Rank.rQ, Rank.rK, Rank.rA]

def allSuits : List Suit :=
  [Suit.spades, Suit.hearts, Suit.diamonds, Suit.clubs]

/-- A 52-card deck in construction order (`Deck.__init__` of
src/blackjack/models.py iterates suits then ranks); shuffling is modelled by
passing an arbitrary permutation wherever a fresh shoe is needed. -/
def standardDeck : List Card :=
  allSuits.flatMap (fun s => allRanks.map (fun r => ⟨r, s⟩))

def gRoundOver : Game :=
  ⟨standardDeck, 52, 1, [emptyHand], emptyHand, GameState.ROUND_OVER, 0, none, 0, 2, false⟩

def gPlayerTurn : Game :=
  ⟨standardDeck, 52, 1, [⟨[⟨Rank.r10, Suit.spades⟩, ⟨Rank.r6, Suit.spades⟩], false, false⟩],
   ⟨[⟨Rank.r7, Suit.spades⟩, ⟨Rank.r5, Suit.spades⟩], false, false⟩,
   GameState.PLAYER_TURN, 0, none, 0, 2, false⟩

/-- C6: `start_round` succeeds only from ROUND_OVER and fails from every
other state; each of hit, stand, double_down and split is rejected outright
whenever the state is not PLAYER_TURN. -/
theorem claim_C6_state_guards :
    (∀ (g : Game) (fresh : List Card),
      ((g.start_round fresh).2 = none → g.state = GameState.ROUND_OVER) ∧
      (g.state ≠ GameState.ROUND_OVER → (g.start_round fresh).2 ≠ none)) ∧
    (∀ g : Game, g.state ≠ GameState.PLAYER_TURN →
      (g.hit).2 ≠ none ∧ (g.stand).2 ≠ none ∧
      (g.double_down).2 ≠ none ∧ (g.split).2 ≠ none) := by
  constructor
  · intro g fresh
    constructor
    · intro hsucc
      by_contra hst
      unfold Game.start_round at hsucc
      rw [if_neg hst] at hsucc
      simp at hsucc
    · intro hst
      unfold Game.start_round
      rw [if_neg hst]
      simp
  · intro g hst
    refine ⟨?_, ?_, ?_, ?_⟩
    · unfold Game.hit
      rw [if_neg hst]
      simp
    · unfold Game.stand
      rw [if_neg hst]
      simp
    · unfold Game.double_down
      rw [if_neg hst]
      simp
    · unfold Game.split
      rw [if_neg hst]
      simp

theorem claim_C6_witness :
    (gPlayerTurn.start_round standardDeck).2 ≠ none ∧
    (gRoundOver.hit).2 ≠ none ∧ (gRoundOver.stand).2 ≠ none ∧
    (gRoundOver.double_down).2 ≠ none ∧ (gRoundOver.split).2 ≠ none :=
  ⟨(claim_C6_state_guards.1 gPlayerTurn standardDeck).2 (by decide),
   (claim_C6_state_guards.2 gRoundOver (by decide)).1,
   (claim_C6_state_guards.2 gRoundOver (by decide)).2.1,
   (claim_C6_state_guards.2 gRoundOver (by decide)).2.2.1,
   (claim_C6_state_guards.2 gRoundOver (by decide)).2.2.2⟩

/- ### Count tracking through the dealing path (claim C3) -/

theorem dealCard_concat {g : Game} {s : List Card} {c : Card}
    (h : g.shoeCards = s ++ [c]) :
    g.dealCard =
      some (c, { g with shoeCards := s, runningCount := g.runningCount + c.count_weight }) := by
  unfold Game.dealCard
  rw [h]
  simp [List.getLast?_concat]

/-- Iterated dealing through the Game's dealing path, discarding the cards. -/
def dealSeq : Game → Nat → Option Game
  | g, 0 => some g
  | g, n + 1 =>
    match g.dealCard with
    | none => none
    | some (_, g1) => dealSeq g1 n

/-- Behaviour of the dealing phase of `start_round` on a shoe holding at
least four cards: deal order is player (`c1`), dealer (`c2`), player (`c3`),
dealer hole card (`c4`); the running count accumulates all four weights. -/
theorem dealPhase_four {g : Game} {s : List Card} {c1 c2 c3 c4 : Card}
    (h : g.shoeCards = s ++ [c4] ++ [c3] ++ [c2] ++ [c1]) :
    (g.dealPhase).2 = none ∧
    (g.dealPhase).1.dealerHand.cards = [c2, c4] ∧
    (g.dealPhase).1.playerHands = [⟨[c1, c3], false, false⟩] ∧
    (g.dealPhase).1.shoeCards = s ∧
    (g.dealPhase).1.shoeTotal = g.shoeTotal ∧
    (g.dealPhase).1.runningCount =
      g.runningCount + c1.count_weight + c2.count_weight + c3.count_weight
        + c4.count_weight := by
  obtain ⟨shoe, total, nd, phs, dh, st, idx, fb, rc, hq, nv⟩ := g
  dsimp only at h
  subst h
  unfold Game.dealPhase
  simp only [Game.dealCard, Game.addCardToPlayer, Game.setHand, Game.addCardToDealer,
    Hand.add_card, emptyHand, List.getLast?_concat, List.dropLast_concat,
    List.getD, List.getElem?_eq_getElem, Game.resolveRound]
  simp [Game.resolveRound]
  split <;> simp [Game.resolveRound]

/-- A game mid-round whose shoe deals the ranks 2, 2, 10, A in sequence
(`Deck.deal` pops from the back of the list). -/
def gCount : Game :=
  ⟨[⟨Rank.rA, Suit.spades⟩, ⟨Rank.r10, Suit.spades⟩, ⟨Rank.r2, Suit.spades⟩,
    ⟨Rank.r2, Suit.hearts⟩],
   52, 1, [emptyHand], emptyHand, GameState.PLAYER_TURN, 0, none, 5, 2, false⟩

/-- C3: the Hi-Lo weights are +1 for ranks 2-6, 0 for 7-9 and -1 for
10/J/Q/K/A; every card dealt through the Game's dealing path adds its weight
to the running count; the initial deal of `start_round` counts all four dealt
cards, the dealer's hole card (the fourth card, `c4`) included; and dealing
2, 2, 10, A in sequence leaves the running count unchanged (net 0). -/
theorem claim_C3_count_tracking :
    (∀ c : Card,
      ((c.rank = Rank.r2 ∨ c.rank = Rank.r3 ∨ c.rank = Rank.r4 ∨ c.rank = Rank.r5 ∨
        c.rank = Rank.r6) → c.count_weight = 1) ∧
      ((c.rank = Rank.r7 ∨ c.rank = Rank.r8 ∨ c.rank = Rank.r9) → c.count_weight = 0) ∧
      ((c.rank = Rank.r10 ∨ c.rank = Rank.rJ ∨ c.rank = Rank.rQ ∨ c.rank = Rank.rK ∨
        c.rank = Rank.rA) → c.count_weight = -1)) ∧
    (∀ (g : Game) (c : Card) (g1 : Game), g.dealCard = some (c, g1) →
      g1.runningCount = g.runningCount + c.count_weight) ∧
    (∀ (g : Game) (fresh s : List Card) (c1 c2 c3 c4 : Card),
      g.state = GameState.ROUND_OVER →
      ¬ 3 * g.shoeTotal < 4 * (g.shoeTotal - g.shoeCards.length) →
      g.shoeCards = s ++ [c4] ++ [c3] ++ [c2] ++ [c1] →
      (g.start_round fresh).1.dealerHand.cards = [c2, c4] ∧
      (g.start_round fresh).1.runningCount =
        g.runningCount + c1.count_weight + c2.count_weight + c3.count_weight
          + c4.count_weight) ∧
    (dealSeq gCount 4).map Game.runningCount = some gCount.runningCount := by
  refine ⟨?_, ?_, ?_, by decide⟩
  · intro c
    obtain ⟨r, su⟩ := c
    cases r <;> simp [Card.count_weight]
  · intro g c g1 h
    rw [dealCard_some h]
  · intro g fresh s c1 c2 c3 c4 hst hpen hshoe
    have hsr : g.start_round fresh = g.dealPhase := by
      unfold Game.start_round reshufflePolicy
      rw [if_pos hst, if_neg hpen]
    rw [hsr]
    obtain ⟨h1, h2, h3, h4, h5, h6⟩ := dealPhase_four hshoe
    exact ⟨h2, h6⟩

/-- A variant of `gCount` parked in ROUND_OVER with a freshly built 4-card
shoe, so the next `start_round` deals 2, 2, 10, A without reshuffling. -/
def gCountRO : Game :=
  ⟨[⟨Rank.rA, Suit.spades⟩, ⟨Rank.r10, Suit.spades⟩, ⟨Rank.r2, Suit.spades⟩,
    ⟨Rank.r2, Suit.hearts⟩],
   4, 1, [emptyHand], emptyHand, GameState.ROUND_OVER, 0, none, 5, 2, false⟩

theorem claim_C3_witness :
    (gCountRO.start_round []).1.dealerHand.cards =
      [⟨Rank.r2, Suit.spades⟩, ⟨Rank.rA, Suit.spades⟩] ∧
    (gCountRO.start_round []).1.runningCount =
      gCountRO.runningCount + (⟨Rank.r2, Suit.hearts⟩ : Card).count_weight
        + (⟨Rank.r2, Suit.spades⟩ : Card).count_weight
        + (⟨Rank.r10, Suit.spades⟩ : Card).count_weight
        + (⟨Rank.rA, Suit.spades⟩ : Card).count_weight :=
  claim_C3_count_tracking.2.2.1 gCountRO [] [] ⟨Rank.r2, Suit.hearts⟩ ⟨Rank.r2, Suit.spades⟩
    ⟨Rank.r10, Suit.spades⟩ ⟨Rank.rA, Suit.spades⟩ rfl (by decide) rfl

/- ### Penetration-triggered reshuffle (claim C4) -/

/-- A 1-deck game parked in ROUND_OVER with 12 cards left of 52 (40 dealt,
penetration about 0.77, above the 0.75 trigger). -/
def g40 : Game :=
  ⟨standardDeck.take 12, 52, 1, [emptyHand], emptyHand, GameState.ROUND_OVER, 0, none, 7, 2,
   false⟩

/-- A 1-deck game parked in ROUND_OVER with 22 cards left of 52 (30 dealt,
penetration below 0.75). -/
def g30 : Game :=
  ⟨standardDeck.take 22, 52, 1, [emptyHand], emptyHand, GameState.ROUND_OVER, 0, none, 7, 2,
   false⟩

/-- C4: `start_round` rebuilds the shoe from fresh fully-shuffled decks and
resets the running count to 0 exactly when penetration exceeds 0.75 (in exact
arithmetic `3 * total < 4 * dealt`); otherwise the remaining shoe cards are
carried unchanged into the new round's dealing phase.  Concretely, a 1-deck
game with 40 cards dealt rebuilds to 52 cards (48 after the initial deal) and
counts only the 4 newly dealt cards, while one with 30 dealt keeps its shoe
and keeps accumulating its old running count. -/
theorem claim_C4_reshuffle_policy :
    (∀ (g : Game) (fresh : List Card), g.state = GameState.ROUND_OVER → 0 < g.shoeTotal →
      (3 * g.shoeTotal < 4 * (g.shoeTotal - g.shoeCards.length) →
        g.start_round fresh =
          Game.dealPhase
            { g with shoeCards := fresh, shoeTotal := fresh.length, runningCount := 0 }) ∧
      (¬ 3 * g.shoeTotal < 4 * (g.shoeTotal - g.shoeCards.length) →
        g.start_round fresh = g.dealPhase)) ∧
    (g40.start_round standardDeck).2 = none ∧
    (g40.start_round standardDeck).1.shoeTotal = 52 ∧
    (g40.start_round standardDeck).1.shoeCards.length = 48 ∧
    (g40.start_round standardDeck).1.runningCount = -4 ∧
    (g30.start_round standardDeck).2 = none ∧
    (g30.start_round standardDeck).1.shoeTotal = 52 ∧
    (g30.start_round standardDeck).1.shoeCards = standardDeck.take 18 ∧
    (g30.start_round standardDeck).1.runningCount = 6 := by
  refine ⟨?_, by decide, by decide, by decide, by decide, by decide, by decide, by decide,
    by decide⟩
  intro g fresh hst _
  constructor
  · intro htrig
    unfold Game.start_round reshufflePolicy
    rw [if_pos hst, if_pos htrig]
  · intro htrig
    unfold Game.start_round reshufflePolicy
    rw [if_pos hst, if_neg htrig]

theorem claim_C4_witness :
    g40.start_round standardDeck =
      Game.dealPhase
        { g40 with shoeCards := standardDeck, shoeTotal := standardDeck.length,
                   runningCount := 0 } ∧
    g30.start_round standardDeck = g30.dealPhase :=
  ⟨(claim_C4_reshuffle_policy.1 g40 standardDeck rfl (by decide)).1 (by decide),
   (claim_C4_reshuffle_policy.1 g30 standardDeck rfl (by decide)).2 (by decide)⟩

/- ### Dealer play (claim C8) -/

theorem dealerHit_stop {g : Game} (h : g.dealerHitIfNeeded = some (false, g)) :
    ∀ n, dealerDrainFuel n g = some g := by
  intro n
  cases n <;> simp [dealerDrainFuel, h]

theorem drainFuel_ge17 :
    ∀ (n : Nat) (g g' : Game), g.state = GameState.DEALER_TURN →
      g.playerHands.all (fun h => h.is_bust) = false →
      dealerDrainFuel n g = some g' → 17 ≤ g'.dealerHand.get_value := by
  intro n
  induction n with
  | zero =>
    intro g g' hst hbust hdr
    by_cases hhit : dealerShouldHit g.dealerHand
    · rcases hdc : g.dealCard with _ | p
      · have hhn : g.dealerHitIfNeeded = none := by
          simp [Game.dealerHitIfNeeded, hst, hbust, hhit, hdc]
        simp [dealerDrainFuel, hhn] at hdr
      · obtain ⟨c, g1⟩ := p
        have hhn : g.dealerHitIfNeeded = some (true, g1.addCardToDealer c) := by
          simp [Game.dealerHitIfNeeded, hst, hbust, hhit, hdc]
        simp [dealerDrainFuel, hhn] at hdr
    · have hhn : g.dealerHitIfNeeded = some (false, g) := by
        simp [Game.dealerHitIfNeeded, hst, hbust, hhit]
      simp [dealerDrainFuel, hhn] at hdr
      subst hdr
      simp [dealerShouldHit] at hhit
      omega
  | succ n ih =>
    intro g g' hst hbust hdr
    by_cases hhit : dealerShouldHit g.dealerHand
    · rcases hdc : g.dealCard with _ | p
      · have hhn : g.dealerHitIfNeeded = none := by
          simp [Game.dealerHitIfNeeded, hst, hbust, hhit, hdc]
        simp [dealerDrainFuel, hhn] at hdr
      · obtain ⟨c, g1⟩ := p
        have hg1 := dealCard_some hdc
        have hhn : g.dealerHitIfNeeded = some (true, g1.addCardToDealer c) := by
          simp [Game.dealerHitIfNeeded, hst, hbust, hhit, hdc]
        simp only [dealerDrainFuel, hhn] at hdr
        refine ih (g1.addCardToDealer c) g' ?_ ?_ hdr
        · subst hg1
          exact hst
        · subst hg1
          exact hbust
    · have hhn : g.dealerHitIfNeeded = some (false, g) := by
        simp [Game.dealerHitIfNeeded, hst, hbust, hhit]
      simp [dealerDrainFuel, hhn] at hdr
      subst hdr
      simp [dealerShouldHit] at hhit
      omega

/-- C8: in DEALER_TURN, if every player hand is busted the dealer deals
itself nothing (its hand stands as it is and the round just resolves); if its
total is already at least 17 it stands immediately (soft 17 included, since
`should_hit` compares the best value); and whenever dealer play completes
successfully with some live player hand, the dealer's final total is at least
17. -/
theorem claim_C8_dealer_standing :
    ∀ g : Game, g.state = GameState.DEALER_TURN →
      (g.playerHands.all (fun h => h.is_bust) = true →
        g.dealer_play = some g.resolveRound ∧
        (g.resolveRound).dealerHand = g.dealerHand) ∧
      (g.playerHands.all (fun h => h.is_bust) = false → 17 ≤ g.dealerHand.get_value →
        g.dealer_play = some g.resolveRound) ∧
      (∀ g', g.playerHands.all (fun h => h.is_bust) = false →
        g.dealer_play = some g' → 17 ≤ g'.dealerHand.get_value) := by
  intro g hst
  refine ⟨?_, ?_, ?_⟩
  · intro hb
    have hhn : g.dealerHitIfNeeded = some (false, g) := by
      simp [Game.dealerHitIfNeeded, hst, hb]
    refine ⟨?_, rfl⟩
    unfold Game.dealer_play
    rw [if_pos hst, dealerHit_stop hhn]
    rfl
  · intro hb h17
    have hnl : ¬ g.dealerHand.get_value < 17 := by omega
    have hhn : g.dealerHitIfNeeded = some (false, g) := by
      simp [Game.dealerHitIfNeeded, hst, hb, dealerShouldHit, hnl]
    unfold Game.dealer_play
    rw [if_pos hst, dealerHit_stop hhn]
    rfl
  · intro g' hb hdp
    unfold Game.dealer_play at hdp
    rw [if_pos hst] at hdp
    rcases hdr : dealerDrainFuel g.shoeCards.length g with _ | gd
    · rw [hdr] at hdp
      simp at hdp
    · rw [hdr] at hdp
      simp at hdp
      have h17 := drainFuel_ge17 g.shoeCards.length g gd hst hb hdr
      rw [← hdp]
      exact h17

/-- A DEALER_TURN position with a live player hand, dealer 16 and a five on
top of the shoe: the dealer must draw to 21 and stand. -/
def gDealerDraw : Game :=
  ⟨[⟨Rank.r5, Suit.spades⟩], 52, 1,
   [⟨[⟨Rank.r10, Suit.spades⟩, ⟨Rank.r6, Suit.spades⟩], true, false⟩],
   ⟨[⟨Rank.r10, Suit.hearts⟩, ⟨Rank.r6, Suit.hearts⟩], false, false⟩,
   GameState.DEALER_TURN, 1, none, 0, 2, false⟩

/-- A DEALER_TURN position where the only player hand is busted. -/
def gDealerBust : Game :=
  ⟨[⟨Rank.r5, Suit.spades⟩], 52, 1,
   [⟨[⟨Rank.r10, Suit.spades⟩, ⟨Rank.r6, Suit.spades⟩, ⟨Rank.r9, Suit.spades⟩], false, false⟩],
   ⟨[⟨Rank.r10, Suit.hearts⟩, ⟨Rank.r2, Suit.hearts⟩], false, false⟩,
   GameState.DEALER_TURN, 1, none, 0, 2, false⟩

theorem claim_C8_witness :
    17 ≤ ((gDealerDraw.dealer_play).getD gDealerDraw).dealerHand.get_value ∧
    gDealerBust.dealer_play = some gDealerBust.resolveRound :=
  ⟨(claim_C8_dealer_standing gDealerDraw rfl).2.2
      ((gDealerDraw.dealer_play).getD gDealerDraw) (by decide) (by decide),
   ((claim_C8_dealer_standing gDealerBust rfl).1 (by decide)).1⟩

/- ### Splitting a hand (claim C5) -/

theorem getElem?_middle (pre : List α) (x : α) (post : List α) :
    (pre ++ x :: post)[pre.length]? = some x := by
  induction pre with
  | nil => simp
  | cons a l ih => simpa using ih

@[simp] theorem getElem_middle (pre : List α) (x : α) (post : List α)
    (h : pre.length < (pre ++ x :: post).length) :
    getElem (pre ++ x :: post) pre.length h = x := by
  have h1 := getElem?_middle pre x post
  rw [List.getElem?_eq_getElem h] at h1
  exact Option.some.inj h1

@[simp] theorem set_middle (pre : List α) (x y : α) (post : List α) :
    (pre ++ x :: post).set pre.length y = pre ++ y :: post := by
  induction pre with
  | nil => rfl
  | cons a l ih => simp [ih]

@[simp] theorem getD_middle (pre : List α) (x : α) (post : List α) (d : α) :
    (pre ++ x :: post).getD pre.length d = x := by
  induction pre with
  | nil => simp
  | cons a l ih => simpa using ih

@[simp] theorem set_middle_two (pre : List α) (x y z : α) (post : List α) :
    (pre ++ x :: y :: post).set (pre.length + 1) z = pre ++ x :: z :: post := by
  induction pre with
  | nil => rfl
  | cons a l ih => simp [ih]

@[simp] theorem getElem_middle_two (pre : List α) (x y : α) (post : List α)
    (h : pre.length + 1 < (pre ++ x :: y :: post).length) :
    getElem (pre ++ x :: y :: post) (pre.length + 1) h = y := by
  have h1 : (pre ++ x :: y :: post)[pre.length + 1]? = some y := by
    have h2 := getElem?_middle (pre ++ [x]) y post
    simpa using h2
  rw [List.getElem?_eq_getElem h] at h1
  exact Option.some.inj h1

@[simp] theorem getD_middle_two (pre : List α) (x y : α) (post : List α) (d : α) :
    (pre ++ x :: y :: post).getD (pre.length + 1) d = y := by
  induction pre with
  | nil => simp
  | cons a l ih => simpa using ih

@[simp] theorem insertAt_middle (pre : List α) (x z : α) (post : List α) :
    listInsertAt (pre ++ x :: post) (pre.length + 1) z = pre ++ x :: z :: post := by
  induction pre with
  | nil => rfl
  | cons a l ih => simpa [listInsertAt] using ih

theorem advanceLoop_append_two (pre : List Hand) (x z : Hand) (hz : z.is_stayed = true) :
    advanceLoop (pre ++ x :: z :: []).length (pre ++ x :: z :: []) pre.length =
      pre.length + 2 := by
  have hlen : (pre ++ x :: z :: []).length = pre.length + 2 := by simp
  rw [hlen]
  show advanceLoop (pre.length + 1 + 1) (pre ++ x :: z :: []) pre.length = pre.length + 2
  have hc : pre.length + 1 < (pre ++ x :: z :: []).length := by simp
  have hgz : (pre ++ x :: z :: []).get ⟨pre.length + 1, hc⟩ = z := by
    have h1 : (pre ++ x :: z :: [])[pre.length + 1]? = some z := by
      have h2 := getElem?_middle (pre ++ [x]) z []
      simpa using h2
    have h3 : (pre ++ x :: z :: [])[pre.length + 1]? =
        some ((pre ++ x :: z :: []).get ⟨pre.length + 1, hc⟩) := by
      rw [List.getElem?_eq_getElem hc]
      simp
    rw [h3] at h1
    exact Option.some.inj h1
  unfold advanceLoop
  rw [dif_pos hc]
  rw [hgz, if_pos hz]
  unfold advanceLoop
  rw [dif_neg (by simp : ¬ (pre.length + 1 + 1 < (pre ++ x :: z :: []).length))]

/-- C5: a successful split on an eligible active pair moves the second card
of the original hand into a new hand inserted immediately after the current
index, marks both hands as split-derived, deals one fresh card to each
(leaving both with exactly two cards), and for a pair of aces marks both
hands stayed and, when no hands follow the current one, auto-advances
straight to DEALER_TURN. -/
theorem claim_C5_split_behaviour :
    ∀ (g : Game) (pre post : List Hand) (c0 c1 : Card) (st0 fs0 : Bool) (up : Card)
      (s : List Card) (d1 d2 : Card),
      g.state = GameState.PLAYER_TURN →
      g.playerHands = pre ++ ⟨[c0, c1], st0, fs0⟩ :: post →
      g.currentHandIndex = pre.length →
      c0.rank = c1.rank →
      g.dealerHand.cards.head? = some up →
      g.shoeCards = s ++ [d2] ++ [d1] →
      (g.split).2 = none ∧
      (g.split).1.playerHands.length = g.playerHands.length + 1 ∧
      (c0.rank ≠ Rank.rA →
        (g.split).1.playerHands =
          pre ++ ⟨[c0, d1], st0, true⟩ :: ⟨[c1, d2], false, true⟩ :: post ∧
        (g.split).1.state = g.state ∧
        (g.split).1.currentHandIndex = pre.length) ∧
      (c0.rank = Rank.rA →
        (g.split).1.playerHands =
          pre ++ ⟨[c0, d1], true, true⟩ :: ⟨[c1, d2], true, true⟩ :: post ∧
        (post = [] → (g.split).1.state = GameState.DEALER_TURN)) := by
  intro g pre post c0 c1 st0 fs0 up s d1 d2 hst hhands hidx hrank hup hshoe
  have hget : g.playerHands[g.currentHandIndex]? = some ⟨[c0, c1], st0, fs0⟩ := by
    rw [hhands, hidx]
    exact getElem?_middle pre _ post
  have hcs : (⟨[c0, c1], st0, fs0⟩ : Hand).can_split = true := by
    simp [Hand.can_split, hrank]
  by_cases hace : c0.rank = Rank.rA
  · have heq : g.split =
        (Game.advanceHand
          { g with
            playerHands := pre ++ ⟨[c0, d1], true, true⟩ :: ⟨[c1, d2], true, true⟩ :: post,
            shoeCards := s,
            runningCount := g.runningCount + d1.count_weight + d2.count_weight,
            lastMoveFeedback := some ⟨Move.P,
              get_recommended_move ⟨[c0, c1], st0, fs0⟩ up,
              Move.P == get_recommended_move ⟨[c0, c1], st0, fs0⟩ up, pre.length⟩ }, none) := by
      simp [Game.split, Game.recordMoveFeedback, Game.setHand, Game.addCardToPlayer,
        Game.dealCard, Hand.add_card, emptyHand, hst, hget, hcs, hup, hidx, hhands,
        hshoe, hace, List.getLastD, getElem?_middle]
    refine ⟨by rw [heq] <;> rfl, ?_, fun hne => absurd hace hne,
      fun _ => ⟨by rw [heq] <;> rfl, ?_⟩⟩
    · rw [heq, hhands]
      simp [Game.advanceHand]
      omega
    · intro hpost
      subst hpost
      rw [heq]
      dsimp only [Game.advanceHand]
      rw [hidx]
      rw [advanceLoop_append_two pre ⟨[c0, d1], true, true⟩ ⟨[c1, d2], true, true⟩ rfl]
      simp
  · have heq : g.split =
        ({ g with
            playerHands := pre ++ ⟨[c0, d1], st0, true⟩ :: ⟨[c1, d2], false, true⟩ :: post,
            shoeCards := s,
            runningCount := g.runningCount + d1.count_weight + d2.count_weight,
            lastMoveFeedback := some ⟨Move.P,
              get_recommended_move ⟨[c0, c1], st0, fs0⟩ up,
              Move.P == get_recommended_move ⟨[c0, c1], st0, fs0⟩ up, pre.length⟩ }, none) := by
      simp [Game.split, Game.recordMoveFeedback, Game.setHand, Game.addCardToPlayer,
        Game.dealCard, Hand.add_card, emptyHand, hst, hget, hcs, hup, hidx, hhands,
        hshoe, hace, List.getLastD, getElem?_middle]
    refine ⟨by rw [heq] <;> rfl, ?_,
      fun _ => ⟨by rw [heq] <;> rfl, by rw [heq] <;> rfl, by rw [heq]; exact hidx⟩,
      fun ha => absurd ha hace⟩
    rw [heq, hhands]
    simp
    omega

/-- A PLAYER_TURN position holding a pair of eights, dealer showing 7, with
the shoe about to deal a 2 and then a 3. -/
def gSplit : Game :=
  ⟨[⟨Rank.r5, Suit.spades⟩, ⟨Rank.r3, Suit.spades⟩, ⟨Rank.r2, Suit.spades⟩], 52, 1,
   [⟨[⟨Rank.r8, Suit.spades⟩, ⟨Rank.r8, Suit.hearts⟩], false, false⟩],
   ⟨[⟨Rank.r7, Suit.spades⟩, ⟨Rank.r5, Suit.hearts⟩], false, false⟩,
   GameState.PLAYER_TURN, 0, none, 0, 2, false⟩

/-- The same position holding a pair of aces. -/
def gSplitAces : Game :=
  ⟨[⟨Rank.r5, Suit.spades⟩, ⟨Rank.r3, Suit.spades⟩, ⟨Rank.r2, Suit.spades⟩], 52, 1,
   [⟨[⟨Rank.rA, Suit.spades⟩, ⟨Rank.rA, Suit.hearts⟩], false, false⟩],
   ⟨[⟨Rank.r7, Suit.spades⟩, ⟨Rank.r5, Suit.hearts⟩], false, false⟩,
   GameState.PLAYER_TURN, 0, none, 0, 2, false⟩

theorem claim_C5_witness :
    (gSplit.split).2 = none ∧
    (gSplit.split).1.playerHands =
      [⟨[⟨Rank.r8, Suit.spades⟩, ⟨Rank.r2, Suit.spades⟩], false, true⟩,
       ⟨[⟨Rank.r8, Suit.hearts⟩, ⟨Rank.r3, Suit.spades⟩], false, true⟩] ∧
    (gSplitAces.split).1.playerHands =
      [⟨[⟨Rank.rA, Suit.spades⟩, ⟨Rank.r2, Suit.spades⟩], true, true⟩,
       ⟨[⟨Rank.rA, Suit.hearts⟩, ⟨Rank.r3, Suit.spades⟩], true, true⟩] ∧
    (gSplitAces.split).1.state = GameState.DEALER_TURN :=
  ⟨(claim_C5_split_behaviour gSplit [] [] ⟨Rank.r8, Suit.spades⟩ ⟨Rank.r8, Suit.hearts⟩
      false false ⟨Rank.r7, Suit.spades⟩ [⟨Rank.r5, Suit.spades⟩] ⟨Rank.r2, Suit.spades⟩
      ⟨Rank.r3, Suit.spades⟩ rfl rfl rfl rfl rfl rfl).1,
   ((claim_C5_split_behaviour gSplit [] [] ⟨Rank.r8, Suit.spades⟩ ⟨Rank.r8, Suit.hearts⟩
      false false ⟨Rank.r7, Suit.spades⟩ [⟨Rank.r5, Suit.spades⟩] ⟨Rank.r2, Suit.spades⟩
      ⟨Rank.r3, Suit.spades⟩ rfl rfl rfl rfl rfl rfl).2.2.1 (by decide)).1,
   ((claim_C5_split_behaviour gSplitAces [] [] ⟨Rank.rA, Suit.spades⟩ ⟨Rank.rA, Suit.hearts⟩
      false false ⟨Rank.r7, Suit.spades⟩ [⟨Rank.r5, Suit.spades⟩] ⟨Rank.r2, Suit.spades⟩
      ⟨Rank.r3, Suit.spades⟩ rfl rfl rfl rfl rfl rfl).2.2.2 rfl).1,
   ((claim_C5_split_behaviour gSplitAces [] [] ⟨Rank.rA, Suit.spades⟩ ⟨Rank.rA, Suit.hearts⟩
      false false ⟨Rank.r7, Suit.spades⟩ [⟨Rank.r5, Suit.spades⟩] ⟨Rank.r2, Suit.spades⟩
      ⟨Rank.r3, Suit.spades⟩ rfl rfl rfl rfl rfl rfl).2.2.2 rfl).2 rfl⟩

/- ### Failure atomicity (claim C10) -/

/-- A PLAYER_TURN position with an empty shoe: `hit` records its move
feedback and only then fails on the empty-shoe deal. -/
def gEmptyShoe : Game :=
  ⟨[], 52, 1, [⟨[⟨Rank.r10, Suit.spades⟩, ⟨Rank.r6, Suit.spades⟩], false, false⟩],
   ⟨[⟨Rank.r7, Suit.spades⟩, ⟨Rank.r5, Suit.spades⟩], false, false⟩,
   GameState.PLAYER_TURN, 0, none, 0, 2, false⟩

/-- C10 as stated is false: it is not the case that every failing call leaves
the game unchanged.  `hit` on a PLAYER_TURN game with an empty shoe records
the move feedback before the deal raises, so the failed call has mutated
`last_move_feedback`. -/
theorem claim_C10_counterexample :
    ¬ (∀ (g : Game) (fresh : List Card),
      ((g.start_round fresh).2 ≠ none → (g.start_round fresh).1 = g) ∧
      ((g.hit).2 ≠ none → (g.hit).1 = g) ∧
      ((g.stand).2 ≠ none → (g.stand).1 = g) ∧
      ((g.double_down).2 ≠ none → (g.double_down).1 = g) ∧
      ((g.split).2 ≠ none → (g.split).1 = g)) := by
  intro hall
  have h := (hall gEmptyShoe []).2.1 (by decide)
  exact absurd h (by decide)

/-- C10 amended: every failure caused by an invalid game state or by an
ineligible hand happens before any state change, leaving the game exactly as
it was; only the defensive empty-shoe failure mid-operation (unreachable
under the reshuffle policy) can leave earlier mutations behind. -/
theorem claim_C10_amended :
    ∀ (g : Game) (fresh : List Card),
      (g.state ≠ GameState.ROUND_OVER → (g.start_round fresh).1 = g) ∧
      (g.state ≠ GameState.PLAYER_TURN →
        (g.hit).1 = g ∧ (g.stand).1 = g ∧ (g.double_down).1 = g ∧ (g.split).1 = g) ∧
      (∀ hand : Hand, g.state = GameState.PLAYER_TURN →
        g.playerHands[g.currentHandIndex]? = some hand →
        (hand.can_double_down = false → (g.double_down).1 = g) ∧
        (hand.can_split = false → (g.split).1 = g)) := by
  intro g fresh
  refine ⟨?_, ?_, ?_⟩
  · intro hst
    unfold Game.start_round
    rw [if_neg hst]
  · intro hst
    refine ⟨?_, ?_, ?_, ?_⟩
    · unfold Game.hit
      rw [if_neg hst]
    · unfold Game.stand
      rw [if_neg hst]
    · unfold Game.double_down
      rw [if_neg hst]
    · unfold Game.split
      rw [if_neg hst]
  · intro hand hst hh
    constructor
    · intro hcd
      unfold Game.double_down
      rw [if_pos hst, hh]
      simp [hcd]
    · intro hcs
      unfold Game.split
      rw [if_pos hst, hh]
      simp [hcs]

theorem claim_C10_witness :
    (gRoundOver.hit).1 = gRoundOver ∧ (gPlayerTurn.split).1 = gPlayerTurn :=
  ⟨((claim_C10_amended gRoundOver []).2.1 (by decide)).1,
   ((claim_C10_amended gPlayerTurn []).2.2
      ⟨[⟨Rank.r10, Suit.spades⟩, ⟨Rank.r6, Suit.spades⟩], false, false⟩ rfl
      (by decide)).2 (by decide)⟩
